import Mathlib

/-!
Verification of the info-remover metadata-stripping core.

The repository is a TypeScript/Electron application that removes embedded
metadata from files.  This file gives a shallow embedding of the core
pipeline — the type-dispatching router `processByType`, the path resolver
`resolvePaths`, the batch orchestrator (the `process-files` handler), the
office-container sanitizer helpers (`removeCommon`, `processOffice`) and the
generic archive sanitizer `processZip` — and proves/refutes the frozen claims
about them.

Modelling conventions:
* Node string/path operations (`path.parse`, `path.join`, `String.startsWith`,
  `toLowerCase`) are re-implemented over `List Char`, faithful to their
  POSIX behaviour on the inputs the program handles.
* The filesystem is a state value: an association list of file paths to
  abstract content tokens plus a list of existing directories.  Fallible
  operations (stat, mkdir, utimes, rename, unlink, the content sniffer and
  the per-category sanitizers) are driven by an explicit per-item effect
  record `ItemFx`, so a run of the orchestrator is a total function and
  every try/catch of the source is an explicit branch.
* Sanitizer bodies that the claims do not inspect (image/pdf/video codecs)
  appear only through their observable behaviour: an `Except`-valued outcome
  and whether the destination file got (partially) written.
-/

namespace InfoRemover

/-! ## JS string primitives (modelled over `List Char`) -/

/-- Lower-case an ASCII character (model of `toLowerCase` on path chars). -/
def lowerChar (c : Char) : Char :=
  if 65 ≤ c.toNat ∧ c.toNat ≤ 90 then Char.ofNat (c.toNat + 32) else c

/-- Model of JS `String.prototype.toLowerCase` for extension strings. -/
def toLowerStr (s : String) : String :=
  String.mk (s.data.map lowerChar)

/-- `startsL l p` : does list `l` start with `p`?  (Model of `startsWith`.) -/
def startsL : List Char → List Char → Bool
  | _, [] => true
  | [], _ :: _ => false
  | a :: as, b :: bs => a == b && startsL as bs

/-- Model of JS `String.prototype.startsWith`. -/
def strStartsWith (s pat : String) : Bool :=
  startsL s.data pat.data

/-- `containsL l p` : does `p` occur contiguously inside `l`? -/
def containsL : List Char → List Char → Bool
  | [], pat => pat.isEmpty
  | a :: as, pat => startsL (a :: as) pat || containsL as pat

/-- Substring occurrence test (model of JS `String.prototype.includes`). -/
def occursIn (s pat : String) : Bool :=
  containsL s.data pat.data

/-- No path separator occurs in the character list. -/
def noSlashL (l : List Char) : Bool :=
  l.all (fun c => c != '/')

/-! ## `path.parse` / `path.join` (POSIX model) -/

/-- The basename characters of a path: everything after the last `/`. -/
def baseChars (l : List Char) : List Char :=
  (l.reverse.takeWhile (fun c => c != '/')).reverse

/-- The `dir` component of `path.parse`: everything before the last `/`,
with the root directory kept as `/`. -/
def dirChars (l : List Char) : List Char :=
  match l.reverse.dropWhile (fun c => c != '/') with
  | [] => []
  | _ :: rest => if rest.isEmpty then ['/'] else rest.reverse

/-- Index (from the front) of the last `.` of a character list, if any. -/
def lastDotIdx : List Char → Option Nat
  | [] => none
  | a :: as =>
    match lastDotIdx as with
    | some i => some (i + 1)
    | none => if a == '.' then some 0 else none

/-- Result of `path.parse`: the components the program uses. -/
structure PathParts where
  dir : String
  name : String
  ext : String
deriving DecidableEq, Repr

/-- Model of Node `path.parse` (POSIX): `dir` is the directory part,
`name`/`ext` split the basename at its last dot, except that a dot at
position 0 of the basename (a hidden file) yields an empty `ext`. -/
def parsePath (s : String) : PathParts :=
  let b := baseChars s.data
  let d := String.mk (dirChars s.data)
  match lastDotIdx b with
  | some i =>
    if i == 0 then { dir := d, name := String.mk b, ext := "" }
    else { dir := d, name := String.mk (b.take i), ext := String.mk (b.drop i) }
  | none => { dir := d, name := String.mk b, ext := "" }

/-- Model of Node `path.join` for the two-argument uses in the source. -/
def joinP (a b : String) : String :=
  if a == "" then b else if a == "/" then "/" ++ b else a ++ "/" ++ b

/-- `path.parse(inputPath).ext.toLowerCase()` as used by the router. -/
def extOf (s : String) : String :=
  toLowerStr (parsePath s).ext

/-! ## Data model (`src/main/types.ts`) -/

/-- `ProcessResult.status` values. -/
inductive Status where
  | success
  | skipped
  | error
deriving DecidableEq, Repr

/-- `ProcessResult` of `types.ts`; optional fields are `Option`s. -/
structure ProcessResult where
  inputPath : String
  outputPath : Option String := none
  status : Status
  removed : Option (List String) := none
  type : Option String := none
  message : Option String := none
deriving DecidableEq, Repr

/-- `ProcessOptions` of `types.ts`.  `outputDir` is a string that may be
empty (the persisted default), `copySuffix` may be absent. -/
structure ProcessOptions where
  outputDir : String
  copySuffix : Option String
  overwriteSource : Bool
deriving DecidableEq, Repr

/-- `ResolvedPath` of `outputStrategy.ts`; `backupPath` is optional and, as
the code stands, never populated. -/
structure ResolvedPath where
  outputPath : String
  backupPath : Option String := none
deriving DecidableEq, Repr

/-! ## The type classifier / dispatcher (`processorRouter.ts`) -/

/-- File categories the dispatcher distinguishes. -/
inductive Category where
  | image
  | pdf
  | office
  | zip
  | video
  | other
deriving DecidableEq, Repr

def imageExts : List String :=
  [".jpg", ".jpeg", ".png", ".webp", ".tiff", ".gif", ".avif", ".heic"]

def officeExts : List String :=
  [".docx", ".xlsx", ".pptx", ".doc", ".xls", ".ppt"]

def pdfExts : List String := [".pdf"]

def zipExts : List String := [".zip"]

def videoExts : List String :=
  [".mp4", ".mkv", ".mov", ".avi", ".wmv", ".flv", ".webm"]

/-- The test each `if` of `processByType` performs for a category: extension
membership, or (for image/pdf/zip/video) the sniffed-MIME probe.  The office
test consults the extension only — exactly as in the source. -/
def signalMatch (c : Category) (ext mime : String) : Bool :=
  match c with
  | .image => imageExts.contains ext || strStartsWith mime "image/"
  | .pdf => pdfExts.contains ext || mime == "application/pdf"
  | .office => officeExts.contains ext
  | .zip => zipExts.contains ext || mime == "application/zip"
  | .video => videoExts.contains ext || strStartsWith mime "video/"
  | .other => false

/-- The category `processByType`'s `if`/`else if` chain selects. -/
def route (ext mime : String) : Category :=
  if signalMatch .image ext mime then .image
  else if signalMatch .pdf ext mime then .pdf
  else if signalMatch .office ext mime then .office
  else if signalMatch .zip ext mime then .zip
  else if signalMatch .video ext mime then .video
  else .other

/-- The fixed evaluation order of the dispatch chain. -/
def categoryOrder : List Category :=
  [.image, .pdf, .office, .zip, .video]

/-- What a sanitizer returns on success: `{removed, type}`. -/
structure SanSuccess where
  removed : List String
  type : String
deriving DecidableEq, Repr

/-- Success result composed by the dispatcher:
`{inputPath, outputPath, status: success, ...res}`. -/
def mkSuccess (ip op : String) (r : SanSuccess) : ProcessResult :=
  { inputPath := ip, outputPath := some op, status := .success,
    removed := some r.removed, type := some r.type }

/-- Error result composed by the dispatcher's `catch`:
`{inputPath, outputPath, status: error, message}`. -/
def mkCaught (ip op m : String) : ProcessResult :=
  { inputPath := ip, outputPath := some op, status := .error,
    message := some m }

def unsupportedMsg : String := "不支持的文件类型"

/-- The result of one dispatch branch: invoke the category's sanitizer and
either compose the success result or catch its error. -/
def runBranch (ip op : String) (san : Category → Except String SanSuccess)
    (c : Category) : ProcessResult :=
  match san c with
  | .ok r => mkSuccess ip op r
  | .error m => mkCaught ip op m

/-- The `try`-block of `processByType`: the `if`/`else if` dispatch chain.
`san` is the behaviour of the five sanitizers (each may throw). -/
def pbtTry (ip op ext mime : String)
    (san : Category → Except String SanSuccess) : ProcessResult :=
  if signalMatch .image ext mime then runBranch ip op san .image
  else if signalMatch .pdf ext mime then runBranch ip op san .pdf
  else if signalMatch .office ext mime then runBranch ip op san .office
  else if signalMatch .zip ext mime then runBranch ip op san .zip
  else if signalMatch .video ext mime then runBranch ip op san .video
  else { inputPath := ip, status := .error, message := some unsupportedMsg }

/-- `processByType(inputPath, outputPath)`.  The extension is parsed from the
input path; `sniffRes` is the outcome of `fileTypeFromFile` — `.ok none` for
an unrecognized signature (`detected?.mime ?? ''`), `.error` when the probe
itself throws (e.g. the file cannot be read).  Note the probe runs BEFORE the
`try` block, so its exception propagates. -/
def processByType (ip op : String) (sniffRes : Except String (Option String))
    (san : Category → Except String SanSuccess) : Except String ProcessResult :=
  match sniffRes with
  | .error e => .error e
  | .ok detected => .ok (pbtTry ip op (extOf ip) (detected.getD "") san)

/-! ## Filesystem state -/

/-- Abstract filesystem: file paths mapped to abstract content tokens
(first binding wins) and a list of existing directories. -/
structure FsState where
  files : List (String × Nat)
  dirs : List String
deriving DecidableEq, Repr

def fileContent (fs : FsState) (p : String) : Option Nat :=
  fs.files.lookup p

def fileExists (fs : FsState) (p : String) : Bool :=
  (fileContent fs p).isSome

def setFile (fs : FsState) (p : String) (v : Nat) : FsState :=
  { fs with files := (p, v) :: fs.files }

def removeFile (fs : FsState) (p : String) : FsState :=
  { fs with files := fs.files.filter (fun e => e.1 != p) }

/-- `fs.promises.rename(src, dst)` on a file known to exist. -/
def renameFile (fs : FsState) (src dst : String) : FsState :=
  match fileContent fs src with
  | some v => setFile (removeFile fs src) dst v
  | none => fs

/-- `fs.promises.copyFile(src, dst)`. -/
def copyFileFs (fs : FsState) (src dst : String) : FsState :=
  match fileContent fs src with
  | some v => setFile fs dst v
  | none => fs

/-- `fs.promises.mkdir(dir, {recursive: true})` (successful case). -/
def ensureDir (fs : FsState) (d : String) : FsState :=
  { fs with dirs := d :: fs.dirs }

def dirExists (fs : FsState) (d : String) : Bool :=
  fs.dirs.contains d

/-! ## `resolvePaths` (`outputStrategy.ts`) -/

def cfgMsg : String := "未提供输出目录"

def mkdirErrMsg : String := "EACCES: mkdir failed"

/-- `options.copySuffix ?? "-clean"`. -/
def suffixOf (o : ProcessOptions) : String :=
  o.copySuffix.getD "-clean"

/-- `resolvePaths(inputPath, options)`.  `mkdirOk` injects a possible
`mkdir` failure.  Returns the resolved path together with the filesystem
after the `ensureDir` side effect. -/
def resolvePaths (inputPath : String) (o : ProcessOptions) (fs : FsState)
    (mkdirOk : Bool) : Except String (ResolvedPath × FsState) :=
  let parsed := parsePath inputPath
  let sfx := suffixOf o
  if o.overwriteSource then
    .ok ({ outputPath :=
             joinP parsed.dir ("." ++ parsed.name ++ sfx ++ "_tmp" ++ parsed.ext) },
         fs)
  else if o.outputDir == "" then
    .error cfgMsg
  else if mkdirOk then
    .ok ({ outputPath := joinP o.outputDir (parsed.name ++ sfx ++ parsed.ext) },
         ensureDir fs o.outputDir)
  else
    .error mkdirErrMsg

/-- The output path `resolvePaths` computes, as a pure function of the
strings alone (the path formula does not read the filesystem). -/
def outPathOf (o : ProcessOptions) (item : String) : String :=
  let parsed := parsePath item
  let sfx := suffixOf o
  if o.overwriteSource then
    joinP parsed.dir ("." ++ parsed.name ++ sfx ++ "_tmp" ++ parsed.ext)
  else
    joinP o.outputDir (parsed.name ++ sfx ++ parsed.ext)

/-! ## The batch orchestrator (the `process-files` IPC handler) -/

def invalidMsg : String := "无效的文件路径"

def statErrMsg : String := "ENOENT: no such file or directory, stat"

def utimesErrMsg : String := "EPERM: utimes failed"

def renameErrMsg : String := "EPERM: rename failed"

def copyErrMsg : String := "EACCES: copyFile failed"

/-- Per-item effect outcomes: all the ways the fallible operations of one
iteration of the handler's loop can behave.  `sniff` and `san` describe the
content probe and the five sanitizers; `sanWrites` says whether the invoked
sanitizer (partially) wrote the destination file before failing, and
`sanContent` is the content token it writes. -/
structure ItemFx where
  mkdirOk : Bool
  statOk : Bool
  sniff : Except String (Option String)
  san : Category → Except String SanSuccess
  sanWrites : Bool
  sanContent : Nat
  utimesOk : Bool
  renameOk : Bool
  unlinkOk : Bool
  copyOk : Bool
  mkdirOk2 : Bool

/-- The filesystem effect of `processByType`: on sanitizer success the
destination is written; on a sanitizer error it is written only if the
sanitizer got as far as (partially) writing it; when no sanitizer runs
(probe error or unsupported type) nothing is written. -/
def sanFsEffect (fs : FsState) (item out : String) (fx : ItemFx) : FsState :=
  match fx.sniff with
  | .error _ => fs
  | .ok detected =>
    if route (extOf item) (detected.getD "") = .other then fs
    else
      match fx.san (route (extOf item) (detected.getD "")) with
      | .ok _ => setFile fs out fx.sanContent
      | .error _ => if fx.sanWrites then setFile fs out fx.sanContent else fs

/-- Outcome of one loop iteration: the filesystem afterwards, the result
pushed onto `results`, and whether the backup-copy branch ran. -/
structure StepOut where
  fs : FsState
  res : ProcessResult
  didBackup : Bool
deriving Repr

/-- The handler's `catch` clause: re-resolve the paths and, in overwrite
mode, best-effort unlink a dangling temporary output (the inner `try`
ignores both a re-resolution failure and an unlink failure), then record an
error result for the item. -/
def stepCatch (o : ProcessOptions) (fs : FsState) (item : String)
    (fx : ItemFx) (msg : String) (db : Bool) : StepOut :=
  let fs1 :=
    match resolvePaths item o fs fx.mkdirOk2 with
    | .ok (rp, fsr) =>
      if o.overwriteSource && fileExists fsr rp.outputPath && fx.unlinkOk then
        removeFile fsr rp.outputPath
      else fsr
    | .error _ => fs
  { fs := fs1,
    res := { inputPath := item, status := .error, message := some msg },
    didBackup := db }

/-- The tail of one iteration after path resolution, stat and the backup
copy: run `processByType`, then on success preserve timestamps and, in
overwrite mode, rename the temporary output onto the original path and
rewrite the reported `outputPath`. -/
def stepRun (o : ProcessOptions) (fs : FsState) (item : String)
    (fx : ItemFx) (rp : ResolvedPath) (db : Bool) : StepOut :=
  let fs2 := sanFsEffect fs item rp.outputPath fx
  match processByType item rp.outputPath fx.sniff fx.san with
  | .error e => stepCatch o fs2 item fx e db
  | .ok result =>
    if result.status = .success then
      if fx.utimesOk then
        if o.overwriteSource then
          if fx.renameOk then
            { fs := renameFile fs2 rp.outputPath item,
              res := { result with outputPath := some item },
              didBackup := db }
          else stepCatch o fs2 item fx renameErrMsg db
        else { fs := fs2, res := result, didBackup := db }
      else stepCatch o fs2 item fx utimesErrMsg db
    else { fs := fs2, res := result, didBackup := db }

/-- One iteration of the `process-files` loop for item `item`. -/
def step (o : ProcessOptions) (fs : FsState) (item : String)
    (fx : ItemFx) : StepOut :=
  if item = "" then
    { fs := fs,
      res := { inputPath := "", status := .error, message := some invalidMsg },
      didBackup := false }
  else
    match resolvePaths item o fs fx.mkdirOk with
    | .error e => stepCatch o fs item fx e false
    | .ok (rp, fs1) =>
      if fileExists fs1 item && fx.statOk then
        match rp.backupPath with
        | some bp =>
          if fx.copyOk then stepRun o (copyFileFs fs1 item bp) item fx rp true
          else stepCatch o fs1 item fx copyErrMsg false
        | none => stepRun o fs1 item fx rp false
      else stepCatch o fs1 item fx statErrMsg false

/-- The whole `process-files` handler: sequentially process the items,
threading the filesystem and accumulating one result per item, in order.
The function is total: every fallible operation inside the loop is an
explicit branch, mirroring the per-item `try`/`catch`. -/
def runBatch (o : ProcessOptions) : FsState → List (String × ItemFx) →
    FsState × List ProcessResult
  | fs, [] => (fs, [])
  | fs, (it, fx) :: rest =>
    let s := step o fs it fx
    let r := runBatch o s.fs rest
    (r.1, s.res :: r.2)

/-! ## The office-container sanitizer (`officeProcessor.ts`) -/

/-- One named entry of the document container (JSZip file map entry). -/
structure ZEntry where
  name : String
  content : String
deriving DecidableEq, Repr

def EMPTY_WORD_COMMENTS : String :=
  "<w:comments xmlns:w=\"http://schemas.openxmlformats.org/wordprocessingml/2006/main\"></w:comments>"

def EMPTY_XLSX_COMMENTS : String :=
  "<comments xmlns=\"http://schemas.openxmlformats.org/spreadsheetml/2006/main\"></comments>"

def EMPTY_PPT_COMMENTS : String :=
  "<p:cmLst xmlns:a=\"http://schemas.openxmlformats.org/drawingml/2006/main\" xmlns:p=\"http://schemas.openxmlformats.org/presentationml/2006/main\"></p:cmLst>"

def COMMON_REMOVALS : List String :=
  ["docProps/core.xml", "docProps/app.xml", "docProps/custom.xml",
   "docProps/thumbnail.emf", "docProps/thumbnail.jpeg"]

/-- The custom-properties-data entry name marker, `customXml/`
(`CUSTOM_XML_` followed by the word for the marker in the source). -/
def CUSTOM_XML_PFX : String := "customXml/"

/-- `zip.file(name)` truthiness: does an entry with this name exist? -/
def hasFile (z : List ZEntry) (n : String) : Bool :=
  z.any (fun e => e.name == n)

/-- `zip.remove(name)` restricted to file entries: drop the named entry. -/
def removeEntry (z : List ZEntry) (n : String) : List ZEntry :=
  z.filter (fun e => e.name != n)

/-- `zip.file(name, content)` on an existing entry: replace its content. -/
def setEntry (z : List ZEntry) (n c : String) : List ZEntry :=
  z.map (fun e => if e.name == n then { e with content := c } else e)

/-- `zip.file(name)?.async('string')`. -/
def getContent (z : List ZEntry) (n : String) : Option String :=
  (z.find? (fun e => e.name == n)).map (fun e => e.content)

/-- First half of `removeCommon`: the `for` loop over `COMMON_REMOVALS`,
removing each entry that is present and recording its name. -/
def removeFixed (z : List ZEntry) : List ZEntry × List String :=
  COMMON_REMOVALS.foldl
    (fun acc n =>
      if hasFile acc.1 n then (removeEntry acc.1 n, acc.2 ++ [n]) else acc)
    (z, [])

/-- Second half of `removeCommon`: collect the entry names that start with
the custom-properties marker, then `forEach` push the marker and remove the
entry — the marker is pushed once per matching name. -/
def removeCustomXml (z : List ZEntry) (removed : List String) :
    List ZEntry × List String :=
  let keys := (z.map (fun e => e.name)).filter
      (fun f => strStartsWith f CUSTOM_XML_PFX)
  (keys.foldl (fun acc f => removeEntry acc f) z,
   removed ++ keys.map (fun _ => CUSTOM_XML_PFX))

/-- `removeCommon(zip, removed)`. -/
def removeCommon (z : List ZEntry) : List ZEntry × List String :=
  let s1 := removeFixed z
  removeCustomXml s1.1 s1.2

/-- `clearIfExists(zip, fileName, content, removed)`. -/
def clearIfExists (z : List ZEntry) (fileName content : String)
    (removed : List String) : List ZEntry × List String :=
  if hasFile z fileName then
    (setEntry z fileName content, removed ++ [fileName ++ " cleared"])
  else (z, removed)

/-- `processDocx`.  The regex substitution of `stripTrackRevisions` is
abstracted as the function `stripTR` on the settings-stream text. -/
def processDocx (stripTR : String → String) (z : List ZEntry)
    (removed : List String) : List ZEntry × List String :=
  let s1 := clearIfExists z "word/comments.xml" EMPTY_WORD_COMMENTS removed
  let s2 := clearIfExists s1.1 "word/commentsExtended.xml" EMPTY_WORD_COMMENTS s1.2
  match getContent s2.1 "word/settings.xml" with
  | none => s2
  | some xml =>
    let cleaned := stripTR xml
    if cleaned != xml then
      (setEntry s2.1 "word/settings.xml" cleaned,
       s2.2 ++ ["word/settings.xml trackRevisions"])
    else s2

/-- `processXlsx`: clear every `xl/comments*` stream. -/
def processXlsx (z : List ZEntry) (removed : List String) :
    List ZEntry × List String :=
  let keys := (z.map (fun e => e.name)).filter
      (fun f => strStartsWith f "xl/comments")
  (keys.foldl (fun acc f => setEntry acc f EMPTY_XLSX_COMMENTS) z,
   removed ++ keys.map (fun f => f ++ " cleared"))

/-- `processPptx`: clear every `ppt/comments*` stream. -/
def processPptx (z : List ZEntry) (removed : List String) :
    List ZEntry × List String :=
  let keys := (z.map (fun e => e.name)).filter
      (fun f => strStartsWith f "ppt/comments")
  (keys.foldl (fun acc f => setEntry acc f EMPTY_PPT_COMMENTS) z,
   removed ++ keys.map (fun f => f ++ " cleared"))

def legacyExts : List String := [".doc", ".xls", ".ppt"]

/-- The actionable legacy-format rejection message of `processOffice`. -/
def legacyMsg (ext : String) : String :=
  "暂不支持旧版 Office 格式 (" ++ ext ++
    ")。请先使用 Office 或在线转换工具将其转换为新版格式 (.docx, .xlsx, .pptx) 后再处理。"

def decodeMsg : String :=
  "无法解析该 Office 文件，可能文件已损坏或为不支持的旧版二进制格式。"

/-- `processOffice(inputPath, outputPath)`.  The outer layer of `load` is
the outcome of `fs.promises.readFile` (its exception is NOT caught and
propagates verbatim); the inner layer is `JSZip.loadAsync` on the bytes,
whose failure the `try`/`catch` converts into the fixed decode-error
message.  `stripTR` abstracts the track-revisions regex substitution.
Returns the removed-items report and the final archive (its DEFLATE
re-serialization and the write to the destination are outside the model). -/
def processOffice (inputPath : String) (stripTR : String → String)
    (load : Except String (Except String (List ZEntry))) :
    Except String (List String × List ZEntry) :=
  let ext := extOf inputPath
  if legacyExts.contains ext then
    .error (legacyMsg ext)
  else
    match load with
    | .error e => .error e
    | .ok (.error _) => .error decodeMsg
    | .ok (.ok zip) =>
      let s1 := removeCommon zip
      let s2 :=
        if ext == ".docx" then processDocx stripTR s1.1 s1.2
        else if ext == ".xlsx" then processXlsx s1.1 s1.2
        else if ext == ".pptx" then processPptx s1.1 s1.2
        else s1
      .ok (s2.2, s2.1)

/-! ## The generic archive sanitizer (`zipProcessor.ts`) -/

/-- One archive entry, with the attributes `processZip` reads or rebuilds:
name, directory flag, raw bytes, timestamp and compression method. -/
structure AEntry where
  name : String
  dir : Bool
  content : List Nat
  date : Nat
  method : String
deriving DecidableEq, Repr

/-- A zip archive: its entries and its archive-level comment. -/
structure Archive where
  entries : List AEntry
  comment : Option String
deriving DecidableEq, Repr

/-- How one original entry reappears in the rebuilt archive: a directory is
re-created as a directory entry (stored, stamped with the build time `now`);
a file entry keeps its exact bytes and original timestamp, and is compressed
with the archive-wide DEFLATE setting of `generateAsync`. -/
def rebuildEntry (now : Nat) (e : AEntry) : AEntry :=
  if e.dir then
    { name := e.name, dir := true, content := [], date := now, method := "STORE" }
  else
    { name := e.name, dir := false, content := e.content, date := e.date,
      method := "DEFLATE" }

/-- `processZip`: build a brand-new archive from the original's entries; the
new archive carries no archive-level comment. -/
def processZip (now : Nat) (a : Archive) : Archive :=
  { entries := a.entries.map (rebuildEntry now), comment := none }

/-- The removed-items report `processZip` returns. -/
def zipRemovedReport : List String := ["ZIP 注释/附加头"]

/-- The result the dispatch chain produces once the selected category is
known: the `other` category is rejected with the unsupported-type message,
every other category invokes its sanitizer. -/
def dispatchResult (ip op : String) (san : Category → Except String SanSuccess)
    (c : Category) : ProcessResult :=
  if c = .other then
    { inputPath := ip, status := .error, message := some unsupportedMsg }
  else runBranch ip op san c

/-! ## Lemmas about the dispatch chain -/

theorem pbtTry_eq (ip op ext mime : String)
    (san : Category → Except String SanSuccess) :
    pbtTry ip op ext mime san = dispatchResult ip op san (route ext mime) := by
  unfold pbtTry route dispatchResult
  by_cases h1 : signalMatch Category.image ext mime = true
  · simp [h1]
  · by_cases h2 : signalMatch Category.pdf ext mime = true
    · simp [h1, h2]
    · by_cases h3 : signalMatch Category.office ext mime = true
      · simp [h1, h2, h3]
      · by_cases h4 : signalMatch Category.zip ext mime = true
        · simp [h1, h2, h3, h4]
        · by_cases h5 : signalMatch Category.video ext mime = true
          · simp [h1, h2, h3, h4, h5]
          · simp [h1, h2, h3, h4, h5]

/-- A sanitizer behaviour in which every category fails. -/
def sanFail : Category → Except String SanSuccess :=
  fun _ => .error "fail"

/-- A sanitizer behaviour in which every category succeeds with an empty
report. -/
def sanOkAll : Category → Except String SanSuccess :=
  fun c => .ok { removed := [], type := reprStr c }

/-! ## Claim C2 -/

/-- Claim C2 (counterexample): a single matching signal is NOT always
sufficient — a file with extension `.zip` whose sniffed MIME is `image/png`
matches the zip category's extension signal, yet it is routed to the image
sanitizer, not the zip sanitizer. -/
theorem C2_counterexample :
    signalMatch Category.zip ".zip" "image/png" = true ∧
      route ".zip" "image/png" = Category.image ∧
      Category.image ≠ Category.zip := by
  decide

/-- Claim C2 (amended): a file is routed to a category's sanitizer exactly
when that category's signal (extension membership, or for image/pdf/zip/video
the sniffed-MIME prefix or exact value — the office test consults the
extension only) matches AND no earlier category of the fixed evaluation
order image, pdf, office, zip, video also matches. -/
theorem C2_route_of_signal (ext mime : String) (c : Category)
    (hsig : signalMatch c ext mime = true)
    (hearlier : (categoryOrder.takeWhile (fun c' => c' != c)).all
        (fun c' => !signalMatch c' ext mime) = true) :
    route ext mime = c := by
  cases c with
  | image => simp [route, hsig]
  | pdf =>
    simp [categoryOrder] at hearlier
    simp [route, hsig, hearlier]
  | office =>
    simp [categoryOrder] at hearlier
    simp [route, hsig, hearlier]
  | zip =>
    simp [categoryOrder] at hearlier
    simp [route, hsig, hearlier.1, hearlier.2]
  | video =>
    simp [categoryOrder] at hearlier
    simp [route, hsig, hearlier.1, hearlier.2.1, hearlier.2.2]
  | other => simp [signalMatch] at hsig

/-- Witness for `C2_route_of_signal` at a concrete input: a `.zip` file with
no sniffed MIME is routed to the zip sanitizer. -/
theorem C2_route_of_signal_witness :
    route ".zip" "" = Category.zip :=
  C2_route_of_signal ".zip" "" Category.zip (by decide) (by decide)

/-! ## Claim C3 -/

/-- Claim C3 (counterexample): `processByType` does NOT convert every
exception — the content-sniffing probe runs before the `try` block, so its
exception (e.g. the input file cannot be read) propagates to the caller
instead of becoming a per-item error result. -/
theorem C3_counterexample :
    processByType "a.pdf" "o.pdf"
        (.error "ENOENT: no such file or directory") sanFail
      = .error "ENOENT: no such file or directory" := rfl

/-- Claim C3 (amended): whenever the content-sniffing probe itself returns
(successfully or with no detection), `processByType` never propagates an
exception: it always returns a result, and any exception raised by the
selected sanitizer is converted into
`{inputPath, outputPath, status: error, message}`. -/
theorem C3_no_throw_after_sniff (ip op : String) (detected : Option String)
    (san : Category → Except String SanSuccess) :
    (∃ r, processByType ip op (.ok detected) san = .ok r) ∧
      (∀ m, route (extOf ip) (detected.getD "") ≠ Category.other →
        san (route (extOf ip) (detected.getD "")) = .error m →
        processByType ip op (.ok detected) san = .ok (mkCaught ip op m)) := by
  constructor
  · exact ⟨_, rfl⟩
  · intro m hroute hsan
    show Except.ok (pbtTry ip op (extOf ip) (detected.getD "") san) = _
    rw [pbtTry_eq]
    unfold dispatchResult runBranch
    rw [if_neg hroute, hsan]

/-- Witness for `C3_no_throw_after_sniff`: a `.pdf` input whose sanitizer
throws yields the caught error result. -/
theorem C3_no_throw_after_sniff_witness :
    processByType "a.pdf" "o.pdf" (.ok none) sanFail
      = .ok (mkCaught "a.pdf" "o.pdf" "fail") :=
  (C3_no_throw_after_sniff "a.pdf" "o.pdf" none sanFail).2 "fail"
    (by decide) rfl

/-! ## Claim C10 -/

/-- Claim C10: when more than one category's test matches, `processByType`
routes to the first matching category in the fixed order image, pdf, office,
zip, video; the office test consults the extension only, never the sniffed
MIME; and the result depends only on the sanitizer of the routed category —
the sanitizers of later-matching categories are not invoked. -/
theorem C10_first_match_priority (ext mime : String) :
    route ext mime =
        ((categoryOrder.find? (fun c => signalMatch c ext mime)).getD .other) ∧
      (∀ m', signalMatch Category.office ext m'
          = signalMatch Category.office ext mime) ∧
      (∀ ip op san₁ san₂, san₁ (route ext mime) = san₂ (route ext mime) →
        pbtTry ip op ext mime san₁ = pbtTry ip op ext mime san₂) := by
  refine ⟨?_, fun m' => rfl, ?_⟩
  · unfold route
    by_cases h1 : signalMatch Category.image ext mime = true
    · simp [categoryOrder, List.find?, h1]
    · by_cases h2 : signalMatch Category.pdf ext mime = true
      · simp [categoryOrder, List.find?, h1, h2]
      · by_cases h3 : signalMatch Category.office ext mime = true
        · simp [categoryOrder, List.find?, h1, h2, h3]
        · by_cases h4 : signalMatch Category.zip ext mime = true
          · simp [categoryOrder, List.find?, h1, h2, h3, h4]
          · by_cases h5 : signalMatch Category.video ext mime = true
            · simp [categoryOrder, List.find?, h1, h2, h3, h4, h5]
            · simp [categoryOrder, List.find?, h1, h2, h3, h4, h5]
  · intro ip op san₁ san₂ h
    rw [pbtTry_eq, pbtTry_eq]
    unfold dispatchResult runBranch
    by_cases ho : route ext mime = Category.other
    · rw [if_pos ho, if_pos ho]
    · rw [if_neg ho, if_neg ho, h]

/-- Witness for `C10_first_match_priority`: a `.pdf` file — two sanitizer
behaviours that agree on the pdf category (and disagree on the image
category) produce the same dispatch result. -/
theorem C10_first_match_priority_witness :
    pbtTry "a.pdf" "o.pdf" ".pdf" ""
        (fun c => if c = Category.image then .error "x" else .ok ⟨[], "t"⟩)
      = pbtTry "a.pdf" "o.pdf" ".pdf" ""
        (fun c => if c = Category.image then .error "y" else .ok ⟨[], "t"⟩) :=
  (C10_first_match_priority ".pdf" "").2.2 "a.pdf" "o.pdf" _ _ rfl

/-! ## Lemmas about substring occurrence -/

theorem containsL_append_right (x y pat : List Char)
    (h : containsL y pat = true) : containsL (x ++ y) pat = true := by
  induction x with
  | nil => simpa using h
  | cons a as ih =>
    show (startsL (a :: (as ++ y)) pat || containsL (as ++ y) pat) = true
    rw [ih]
    exact Bool.or_true _

theorem occursIn_append_right (a b pat : String)
    (h : occursIn b pat = true) : occursIn (a ++ b) pat = true := by
  unfold occursIn at h ⊢
  rw [String.data_append]
  exact containsL_append_right _ _ _ h

/-! ## Claim C6 -/

/-- Claim C6: for every input whose (lower-cased) extension marks it as a
legacy binary office file, `processOffice` rejects it with the actionable
legacy-format message — which names the required conversion to the modern
container formats `.docx, .xlsx, .pptx` — and it does so without consulting
the file's content at all: the outcome is the same whatever the read/parse
of the archive would have produced. -/
theorem C6_legacy_rejected (input : String) (stripTR : String → String)
    (load₁ load₂ : Except String (Except String (List ZEntry)))
    (h : legacyExts.contains (extOf input) = true) :
    processOffice input stripTR load₁ = .error (legacyMsg (extOf input)) ∧
      processOffice input stripTR load₁ = processOffice input stripTR load₂ ∧
      occursIn (legacyMsg (extOf input)) ".docx, .xlsx, .pptx" = true := by
  refine ⟨?_, ?_, ?_⟩
  · unfold processOffice
    rw [if_pos h]
  · unfold processOffice
    rw [if_pos h, if_pos h]
  · unfold legacyMsg
    exact occursIn_append_right _ _ _ (by decide)

/-- Witness for `C6_legacy_rejected` at input `report.doc`. -/
theorem C6_legacy_rejected_witness :
    processOffice "report.doc" id (.ok (.ok [])) = .error (legacyMsg ".doc") ∧
      occursIn (legacyMsg ".doc") ".docx, .xlsx, .pptx" = true := by
  have k := C6_legacy_rejected "report.doc" id (.ok (.ok []))
    (.error "ENOENT: no such file or directory") (by decide)
  exact ⟨k.1, k.2.2⟩

/-! ## Lemmas about `removeCommon` -/

theorem countP_removeEntry (z : List ZEntry) (n : String)
    (h : strStartsWith n CUSTOM_XML_PFX = false) :
    (removeEntry z n).countP (fun e => strStartsWith e.name CUSTOM_XML_PFX)
      = z.countP (fun e => strStartsWith e.name CUSTOM_XML_PFX) := by
  unfold removeEntry
  rw [List.countP_filter]
  apply List.countP_congr
  intro e _
  by_cases hp : strStartsWith e.name CUSTOM_XML_PFX = true
  · have hne : e.name ≠ n := by
      intro hn
      rw [hn, h] at hp
      exact absurd hp (by simp)
    simp [hp, hne]
  · simp [Bool.eq_false_iff.mpr hp]

theorem removeFixed_general (names : List String) (z : List ZEntry)
    (r : List String)
    (hn : names.all (fun n => !(strStartsWith n CUSTOM_XML_PFX)) = true) :
    ((names.foldl
        (fun acc n =>
          if hasFile acc.1 n then (removeEntry acc.1 n, acc.2 ++ [n]) else acc)
        (z, r)).1.countP (fun e => strStartsWith e.name CUSTOM_XML_PFX)
        = z.countP (fun e => strStartsWith e.name CUSTOM_XML_PFX)) ∧
      ((names.foldl
        (fun acc n =>
          if hasFile acc.1 n then (removeEntry acc.1 n, acc.2 ++ [n]) else acc)
        (z, r)).2.count CUSTOM_XML_PFX = r.count CUSTOM_XML_PFX) := by
  induction names generalizing z r with
  | nil => exact ⟨rfl, rfl⟩
  | cons n ns ih =>
    rw [List.all_cons, Bool.and_eq_true] at hn
    have hn1 : strStartsWith n CUSTOM_XML_PFX = false := by
      simpa using hn.1
    have hne : n ≠ CUSTOM_XML_PFX := by
      intro he
      rw [he] at hn1
      exact absurd hn1 (by decide)
    rw [List.foldl_cons]
    by_cases hf : hasFile z n = true
    · rw [if_pos hf]
      have k := ih (removeEntry z n) (r ++ [n]) hn.2
      refine ⟨?_, ?_⟩
      · rw [k.1, countP_removeEntry _ _ hn1]
      · rw [k.2, List.count_append]
        simp [List.count_singleton', hne]
    · rw [if_neg hf]
      exact ih z r hn.2

theorem mem_foldl_removeEntry (keys : List String) (z : List ZEntry)
    (e : ZEntry)
    (he : e ∈ keys.foldl (fun acc f => removeEntry acc f) z) :
    e ∈ z ∧ e.name ∉ keys := by
  induction keys generalizing z with
  | nil => simpa using he
  | cons k ks ih =>
    rw [List.foldl_cons] at he
    have h2 := ih (removeEntry z k) he
    have h3 : e ∈ z ∧ e.name ≠ k := by
      have hm := h2.1
      unfold removeEntry at hm
      rw [List.mem_filter] at hm
      exact ⟨hm.1, by simpa using hm.2⟩
    refine ⟨h3.1, ?_⟩
    intro hmem
    rcases List.mem_cons.mp hmem with h | h
    · exact h3.2 h
    · exact h2.2 h

theorem count_map_const (l : List String) (s : String) :
    (l.map (fun _ => s)).count s = l.length := by
  induction l with
  | nil => rfl
  | cons a as ih => simp [ih]

/-! ## Claim C7 -/

/-- Claim C7 (counterexample): with two `customXml/` entries in the
container, the removed-items report records the generic marker TWICE — one
marker per matching entry, not a single marker regardless of count. -/
theorem C7_counterexample :
    (removeCommon [⟨"customXml/item1.xml", "a"⟩,
        ⟨"customXml/item2.xml", "b"⟩]).2 = ["customXml/", "customXml/"] ∧
      (removeCommon [⟨"customXml/item1.xml", "a"⟩,
        ⟨"customXml/item2.xml", "b"⟩]).2.count CUSTOM_XML_PFX ≠ 1 := by
  decide

/-- Claim C7 (amended): `removeCommon` removes every entry whose name begins
with the custom-properties prefix, and the removed-items report records the
generic prefix marker once PER matching entry (so `n` matching entries yield
`n` copies of the marker). -/
theorem C7_custom_xml_removed (z : List ZEntry) :
    ((removeCommon z).1.all
        (fun e => !(strStartsWith e.name CUSTOM_XML_PFX)) = true) ∧
      (removeCommon z).2.count CUSTOM_XML_PFX
        = z.countP (fun e => strStartsWith e.name CUSTOM_XML_PFX) := by
  have hfix := removeFixed_general COMMON_REMOVALS z [] (by decide)
  constructor
  · rw [List.all_eq_true]
    intro e he
    unfold removeCommon removeCustomXml at he
    simp only at he
    have hm := mem_foldl_removeEntry _ _ _ he
    by_cases hp : strStartsWith e.name CUSTOM_XML_PFX = true
    · exfalso
      apply hm.2
      rw [List.mem_filter]
      exact ⟨List.mem_map_of_mem _ hm.1, hp⟩
    · simp [Bool.eq_false_iff.mpr hp]
  · unfold removeCommon removeCustomXml
    simp only
    rw [List.count_append]
    have hlen : ((((removeFixed z).1.map (fun e => e.name)).filter
        (fun f => strStartsWith f CUSTOM_XML_PFX)).map
          (fun _ => CUSTOM_XML_PFX)).count CUSTOM_XML_PFX
        = (removeFixed z).1.countP
            (fun e => strStartsWith e.name CUSTOM_XML_PFX) := by
      rw [count_map_const, ← List.countP_eq_length_filter, List.countP_map]
      rfl
    rw [hlen]
    unfold removeFixed at hfix ⊢
    rw [hfix.1]
    have h0 : ([] : List String).count CUSTOM_XML_PFX = 0 := rfl
    rw [hfix.2, h0, Nat.zero_add]

/-! ## Claim C8 -/

/-- A concrete archive: a single file entry stored without compression,
plus an archive-level comment. -/
def zipArch₀ : Archive :=
  { entries := [{ name := "f.txt", dir := false, content := [1, 2],
                  date := 5, method := "STORE" }],
    comment := some "who-built-this" }

/-- Claim C8 (counterexample): `processZip` does NOT keep the original
entry's compression method — a STORE-compressed file entry is re-stored with
the archive-wide DEFLATE setting. -/
theorem C8_counterexample :
    zipArch₀.entries.map AEntry.method = ["STORE"] ∧
      (processZip 9 zipArch₀).entries.map AEntry.method = ["DEFLATE"] ∧
      ("DEFLATE" : String) ≠ "STORE" := by
  decide

/-- Claim C8 (amended): the rebuilt archive has exactly the original entry
names (in order), carries no archive-level comment, re-creates directory
entries as directories, and re-creates every file entry with its exact
original bytes and timestamp — but compressed with DEFLATE regardless of the
original entry's compression method. -/
theorem C8_archive_roundtrip (now : Nat) (a : Archive) :
    (processZip now a).entries.map AEntry.name = a.entries.map AEntry.name ∧
      (processZip now a).comment = none ∧
      (∀ e ∈ a.entries, e.dir = true → (rebuildEntry now e).dir = true) ∧
      (∀ e ∈ a.entries, e.dir = false →
        (rebuildEntry now e).content = e.content ∧
          (rebuildEntry now e).date = e.date ∧
          (rebuildEntry now e).dir = false ∧
          (rebuildEntry now e).method = "DEFLATE") := by
  refine ⟨?_, rfl, ?_, ?_⟩
  · unfold processZip
    simp only [List.map_map]
    apply List.map_congr_left
    intro e _
    unfold rebuildEntry
    by_cases h : e.dir = true
    · simp [h]
    · simp [h]
  · intro e _ h
    simp [rebuildEntry, h]
  · intro e _ h
    simp [rebuildEntry, h]

/-- The single file entry of `zipArch₀`. -/
def zipEnt₀ : AEntry :=
  { name := "f.txt", dir := false, content := [1, 2], date := 5,
    method := "STORE" }

/-- Witness for `C8_archive_roundtrip` on the concrete archive. -/
theorem C8_archive_roundtrip_witness :
    (processZip 9 zipArch₀).entries.map AEntry.name
        = zipArch₀.entries.map AEntry.name ∧
      (processZip 9 zipArch₀).comment = none ∧
      (rebuildEntry 9 zipEnt₀).content = [1, 2] := by
  have k := C8_archive_roundtrip 9 zipArch₀
  refine ⟨k.1, k.2.1, ?_⟩
  have h := k.2.2.2 zipEnt₀ (by decide) rfl
  exact h.1

/-! ## Filesystem micro-lemmas -/

theorem fileContent_setFile_self (fs : FsState) (p : String) (v : Nat) :
    fileContent (setFile fs p v) p = some v := by
  simp [fileContent, setFile, List.lookup]

theorem fileContent_setFile_ne (fs : FsState) (p q : String) (v : Nat)
    (h : p ≠ q) : fileContent (setFile fs q v) p = fileContent fs p := by
  simp [fileContent, setFile, List.lookup, beq_eq_false_iff_ne.mpr h]

theorem lookup_filter_ne (l : List (String × Nat)) (p q : String)
    (h : p ≠ q) : (l.filter (fun e => e.1 != q)).lookup p = l.lookup p := by
  induction l with
  | nil => rfl
  | cons e es ih =>
    by_cases he : e.1 = q
    · have hpe : (p == e.1) = false := beq_eq_false_iff_ne.mpr (he ▸ h)
      have hpq : (p == q) = false := beq_eq_false_iff_ne.mpr h
      simp [List.filter, he, List.lookup, hpe, hpq, ih]
    · simp only [List.filter_cons, bne_iff_ne, ne_eq, he, not_false_iff,
        if_true, List.lookup]
      by_cases hpe : p = e.1
      · simp [hpe]
      · simp [beq_eq_false_iff_ne.mpr hpe, ih]

theorem lookup_filter_self (l : List (String × Nat)) (q : String) :
    (l.filter (fun e => e.1 != q)).lookup q = none := by
  induction l with
  | nil => rfl
  | cons e es ih =>
    by_cases he : e.1 = q
    · simp [List.filter, he, ih]
    · have hq : (q == e.1) = false := beq_eq_false_iff_ne.mpr (Ne.symm he)
      simp only [List.filter_cons, bne_iff_ne, ne_eq, he, not_false_iff,
        if_true, List.lookup, hq]
      exact ih

theorem fileContent_removeFile_self (fs : FsState) (p : String) :
    fileContent (removeFile fs p) p = none :=
  lookup_filter_self fs.files p

theorem fileContent_removeFile_ne (fs : FsState) (p q : String)
    (h : p ≠ q) : fileContent (removeFile fs q) p = fileContent fs p :=
  lookup_filter_ne fs.files p q h

theorem fileExists_renameFile_src (fs : FsState) (src dst : String)
    (h : src ≠ dst) : fileExists (renameFile fs src dst) src = false := by
  unfold renameFile
  cases hc : fileContent fs src with
  | none => simp [fileExists, hc]
  | some v =>
    simp [fileExists, fileContent_setFile_ne _ _ _ _ h,
      fileContent_removeFile_self]

theorem fileExists_renameFile_other (fs : FsState) (src dst p : String)
    (h1 : p ≠ src) (h2 : p ≠ dst) :
    fileExists (renameFile fs src dst) p = fileExists fs p := by
  unfold renameFile
  cases hc : fileContent fs src with
  | none => rfl
  | some v =>
    unfold fileExists
    rw [fileContent_setFile_ne _ _ _ _ h2, fileContent_removeFile_ne _ _ _ h1]

theorem fileExists_setFile_ne (fs : FsState) (p q : String) (v : Nat)
    (h : p ≠ q) : fileExists (setFile fs q v) p = fileExists fs p := by
  unfold fileExists
  rw [fileContent_setFile_ne _ _ _ _ h]

theorem fileExists_removeFile_ne (fs : FsState) (p q : String)
    (h : p ≠ q) : fileExists (removeFile fs q) p = fileExists fs p := by
  unfold fileExists
  rw [fileContent_removeFile_ne _ _ _ h]

theorem fileExists_removeFile_self (fs : FsState) (p : String) :
    fileExists (removeFile fs p) p = false := by
  unfold fileExists
  rw [fileContent_removeFile_self]
  rfl

theorem fileExists_files_eq (fs₁ fs₂ : FsState) (p : String)
    (h : fs₁.files = fs₂.files) : fileExists fs₁ p = fileExists fs₂ p := by
  unfold fileExists fileContent
  rw [h]

/-! ## Lemmas about `resolvePaths` -/

/-- A successful resolution always yields the pure path formula, never a
backup path, and never touches any file (only the output directory). -/
theorem resolvePaths_ok_shape (input : String) (o : ProcessOptions)
    (fs : FsState) (mk : Bool) (rp : ResolvedPath) (fs' : FsState)
    (h : resolvePaths input o fs mk = .ok (rp, fs')) :
    rp.outputPath = outPathOf o input ∧ rp.backupPath = none ∧
      fs'.files = fs.files := by
  unfold resolvePaths at h
  unfold outPathOf
  split_ifs at h with h1 h2 h3 <;>
    simp only [Except.ok.injEq, Prod.mk.injEq] at h
  · obtain ⟨hrp, hfs⟩ := h
    rw [← hrp, ← hfs]
    simp [h1]
  · obtain ⟨hrp, hfs⟩ := h
    rw [← hrp, ← hfs]
    simp [h1, ensureDir]

/-- In overwrite mode the resolver is deterministic, effect-free and
independent of `mkdirOk`. -/
theorem resolvePaths_overwrite (input : String) (o : ProcessOptions)
    (fs : FsState) (mk : Bool) (hov : o.overwriteSource = true) :
    resolvePaths input o fs mk =
      .ok ({ outputPath := outPathOf o input, backupPath := none }, fs) := by
  unfold resolvePaths outPathOf
  rw [if_pos hov, if_pos hov]

/-- The branch the resolver takes and the path it computes do not depend on
the filesystem; only the returned state does, and only in its `dirs`. -/
theorem resolvePaths_fs_cases (input : String) (o : ProcessOptions)
    (mk : Bool) (fs₁ fs₂ : FsState) :
    (∃ e, resolvePaths input o fs₁ mk = .error e ∧
          resolvePaths input o fs₂ mk = .error e) ∨
    (∃ rp fs₁' fs₂', resolvePaths input o fs₁ mk = .ok (rp, fs₁') ∧
        resolvePaths input o fs₂ mk = .ok (rp, fs₂') ∧
        fs₁'.files = fs₁.files ∧ fs₂'.files = fs₂.files) := by
  unfold resolvePaths
  split_ifs
  · exact Or.inr ⟨_, _, _, rfl, rfl, rfl, rfl⟩
  · exact Or.inl ⟨_, rfl, rfl⟩
  · exact Or.inr ⟨_, _, _, rfl, rfl, rfl, rfl⟩
  · exact Or.inl ⟨_, rfl, rfl⟩

/-! ## Claim C5 -/

/-- Claim C5: `resolvePaths` computes the destination exactly as specified.
In overwrite mode the destination is a hidden sibling next to the input
(same directory, `.`-prefixed name carrying the suffix and a `_tmp` marker,
same extension) and resolution always succeeds without touching the
filesystem.  Otherwise an empty `outputDir` fails immediately with the
configuration error — and the orchestrator then records exactly that error
for the item, for EVERY sanitizer behaviour, i.e. before any sanitizer runs.
Otherwise the destination is `outputDir/name{suffix}{ext}` with the suffix
defaulting to `-clean` when unspecified, and `outputDir` is created
(recursively) as a side effect. -/
theorem C5_resolve_paths (input : String) (o : ProcessOptions) (fs : FsState)
    (mkOk : Bool) :
    (o.overwriteSource = true →
      resolvePaths input o fs mkOk =
        .ok ({ outputPath := joinP (parsePath input).dir
                 ("." ++ (parsePath input).name ++ suffixOf o ++ "_tmp" ++
                   (parsePath input).ext),
               backupPath := none }, fs)) ∧
    (o.overwriteSource = false → o.outputDir = "" →
      resolvePaths input o fs mkOk = .error cfgMsg) ∧
    (o.overwriteSource = false → o.outputDir = "" →
      ∀ (fs' : FsState) (item : String) (fx : ItemFx), item ≠ "" →
        (step o fs' item fx).res =
          { inputPath := item, status := .error, message := some cfgMsg }) ∧
    (o.overwriteSource = false → o.outputDir ≠ "" → mkOk = true →
      resolvePaths input o fs mkOk =
        .ok ({ outputPath := joinP o.outputDir
                 ((parsePath input).name ++ suffixOf o ++ (parsePath input).ext),
               backupPath := none }, ensureDir fs o.outputDir) ∧
      dirExists (ensureDir fs o.outputDir) o.outputDir = true) ∧
    (o.copySuffix = none → suffixOf o = "-clean") := by
  refine ⟨?_, ?_, ?_, ?_, ?_⟩
  · intro hov
    unfold resolvePaths
    rw [if_pos hov]
  · intro hov hdir
    unfold resolvePaths
    rw [if_neg (by simp [hov]), if_pos (by simp [hdir])]
  · intro hov hdir fs' item fx hitem
    have hres : resolvePaths item o fs' fx.mkdirOk = .error cfgMsg := by
      unfold resolvePaths
      rw [if_neg (by simp [hov]), if_pos (by simp [hdir])]
    unfold step
    rw [if_neg hitem, hres]
    rfl
  · intro hov hdir hmk
    refine ⟨?_, ?_⟩
    · unfold resolvePaths
      rw [if_neg (by simp [hov]), if_neg (by simp [hdir]), if_pos hmk]
    · simp [dirExists, ensureDir]
  · intro hcs
    unfold suffixOf
    rw [hcs]
    rfl

/-- Witness for `C5_resolve_paths`: the three modes at concrete inputs. -/
theorem C5_resolve_paths_witness :
    resolvePaths "/a/x.png" ⟨"", none, true⟩ ⟨[], []⟩ true =
        .ok ({ outputPath := joinP (parsePath "/a/x.png").dir
                 ("." ++ (parsePath "/a/x.png").name ++
                   suffixOf ⟨"", none, true⟩ ++ "_tmp" ++
                   (parsePath "/a/x.png").ext),
               backupPath := none }, ⟨[], []⟩) ∧
      resolvePaths "/a/x.png" ⟨"", none, false⟩ ⟨[], []⟩ true = .error cfgMsg ∧
      resolvePaths "/a/x.png" ⟨"/out", none, false⟩ ⟨[], []⟩ true =
        .ok ({ outputPath := joinP "/out"
                 ((parsePath "/a/x.png").name ++ suffixOf ⟨"/out", none, false⟩ ++
                   (parsePath "/a/x.png").ext),
               backupPath := none }, ensureDir ⟨[], []⟩ "/out") ∧
      suffixOf ⟨"/out", none, false⟩ = "-clean" := by
  refine ⟨?_, ?_, ?_, ?_⟩
  · exact (C5_resolve_paths "/a/x.png" ⟨"", none, true⟩ ⟨[], []⟩ true).1 rfl
  · exact (C5_resolve_paths "/a/x.png" ⟨"", none, false⟩ ⟨[], []⟩ true).2.1 rfl rfl
  · exact ((C5_resolve_paths "/a/x.png" ⟨"/out", none, false⟩ ⟨[], []⟩ true).2.2.2.1
      rfl (by decide) rfl).1
  · exact (C5_resolve_paths "/a/x.png" ⟨"/out", none, false⟩ ⟨[], []⟩ true).2.2.2.2 rfl

/-! ## Claim C9 -/

/-- `stepRun` reports the backup flag it was given. -/
theorem stepRun_didBackup (o : ProcessOptions) (fs : FsState) (item : String)
    (fx : ItemFx) (rp : ResolvedPath) (db : Bool) :
    (stepRun o fs item fx rp db).didBackup = db := by
  unfold stepRun
  cases processByType item rp.outputPath fx.sniff fx.san with
  | error e => rfl
  | ok result =>
    simp only
    split_ifs <;> rfl

/-- Claim C9: `resolvePaths` never returns a backup path, so the
orchestrator's backup-copy branch is dead code — for every item processed,
the backup copy is never performed, in any mode. -/
theorem C9_no_backup (o : ProcessOptions) (fs : FsState) (item : String)
    (fx : ItemFx) :
    (∀ (input : String) (fs₀ : FsState) (mkOk : Bool) (rp : ResolvedPath)
        (fs' : FsState),
       resolvePaths input o fs₀ mkOk = .ok (rp, fs') → rp.backupPath = none) ∧
      (step o fs item fx).didBackup = false := by
  constructor
  · intro input fs₀ mkOk rp fs' h
    exact (resolvePaths_ok_shape input o fs₀ mkOk rp fs' h).2.1
  · unfold step
    by_cases hitem : item = ""
    · rw [if_pos hitem]
    · rw [if_neg hitem]
      cases hres : resolvePaths item o fs fx.mkdirOk with
      | error e => rfl
      | ok v =>
        obtain ⟨rp, fs1⟩ := v
        have hbp : rp.backupPath = none :=
          (resolvePaths_ok_shape item o fs fx.mkdirOk rp fs1 hres).2.1
        simp only [hbp]
        by_cases hst : (fileExists fs1 item && fx.statOk) = true
        · rw [if_pos hst]
          exact stepRun_didBackup o fs1 item fx rp false
        · rw [if_neg hst]
          rfl

/-- Options and effect outcomes for the C9 witness run. -/
def o₉ : ProcessOptions := ⟨"/out", none, false⟩

def fx₉ : ItemFx :=
  { mkdirOk := true, statOk := true, sniff := .ok none, san := sanFail,
    sanWrites := false, sanContent := 0, utimesOk := true, renameOk := true,
    unlinkOk := true, copyOk := true, mkdirOk2 := true }

/-- Witness for `C9_no_backup` at a concrete resolution. -/
theorem C9_no_backup_witness :
    ({ outputPath := "/out/x-clean.png", backupPath := none } :
        ResolvedPath).backupPath = none ∧
      (step o₉ ⟨[], []⟩ "/a/x.png" fx₉).didBackup = false :=
  ⟨(C9_no_backup o₉ ⟨[], []⟩ "/a/x.png" fx₉).1 "/a/x.png" ⟨[], []⟩ true
      { outputPath := "/out/x-clean.png", backupPath := none }
      (ensureDir ⟨[], []⟩ "/out") rfl,
    (C9_no_backup o₉ ⟨[], []⟩ "/a/x.png" fx₉).2⟩

/-! ## Path lemmas: the temporary sibling differs from the input path -/

theorem all_takeWhile (p : Char → Bool) (l : List Char) :
    (l.takeWhile p).all p = true := by
  induction l with
  | nil => rfl
  | cons a as ih =>
    by_cases h : p a = true
    · simp [List.takeWhile_cons, h, ih]
    · simp [List.takeWhile_cons, h]

theorem takeWhile_append_of_all (p : Char → Bool) (l₁ l₂ : List Char)
    (h : l₁.all p = true) :
    (l₁ ++ l₂).takeWhile p = l₁ ++ l₂.takeWhile p := by
  induction l₁ with
  | nil => rfl
  | cons a as ih =>
    rw [List.all_cons, Bool.and_eq_true] at h
    simp [List.takeWhile_cons, h.1, ih h.2]

theorem takeWhile_eq_self_of_all (p : Char → Bool) (l : List Char)
    (h : l.all p = true) : l.takeWhile p = l := by
  induction l with
  | nil => rfl
  | cons a as ih =>
    rw [List.all_cons, Bool.and_eq_true] at h
    simp [List.takeWhile_cons, h.1, ih h.2]

theorem noSlash_reverse (l : List Char) :
    noSlashL l.reverse = noSlashL l := by
  unfold noSlashL
  simp [List.all_eq_true]

theorem noSlash_baseChars (l : List Char) :
    noSlashL (baseChars l) = true := by
  unfold baseChars
  rw [noSlash_reverse]
  exact all_takeWhile _ _

theorem baseChars_of_noSlash (l : List Char) (h : noSlashL l = true) :
    baseChars l = l := by
  unfold baseChars
  rw [takeWhile_eq_self_of_all _ _ (by rwa [← noSlash_reverse] at h)]
  exact List.reverse_reverse l

theorem baseChars_append_sep (x b : List Char) (h : noSlashL b = true) :
    baseChars (x ++ '/' :: b) = b := by
  unfold baseChars
  have h1 : (x ++ '/' :: b).reverse = b.reverse ++ '/' :: x.reverse := by
    simp
  rw [h1, takeWhile_append_of_all _ _ _ (by rwa [← noSlash_reverse] at h)]
  have h2 : (('/' :: x.reverse).takeWhile fun c => c != '/') = [] := by
    simp [List.takeWhile_cons]
  rw [h2, List.append_nil, List.reverse_reverse]

theorem baseChars_joinP (a b : String) (h : noSlashL b.data = true) :
    baseChars (joinP a b).data = b.data := by
  unfold joinP
  by_cases h1 : (a == "") = true
  · rw [if_pos h1]
    exact baseChars_of_noSlash _ h
  · rw [if_neg h1]
    by_cases h2 : (a == "/") = true
    · rw [if_pos h2]
      have hd : ("/" ++ b).data = [] ++ '/' :: b.data := by
        rw [String.data_append]
        rfl
      rw [hd]
      exact baseChars_append_sep _ _ h
    · rw [if_neg h2]
      have hd : (a ++ "/" ++ b).data = a.data ++ '/' :: b.data := by
        rw [String.data_append, String.data_append]
        simp
      rw [hd]
      exact baseChars_append_sep _ _ h

theorem parse_base (s : String) :
    (parsePath s).name.data ++ (parsePath s).ext.data = baseChars s.data := by
  unfold parsePath
  cases h : lastDotIdx (baseChars s.data) with
  | none => simp [h]
  | some i =>
    simp only [h]
    by_cases hi : i = 0
    · simp [hi]
    · simp [hi, List.take_append_drop]

theorem noSlash_sub (l l' : List Char) (hsub : l' ⊆ l)
    (h : noSlashL l = true) : noSlashL l' = true := by
  unfold noSlashL at *
  rw [List.all_eq_true] at *
  intro x hx
  exact h x (hsub hx)

theorem noSlash_parse_name (s : String) :
    noSlashL (parsePath s).name.data = true := by
  unfold parsePath
  cases h : lastDotIdx (baseChars s.data) with
  | none => simpa [h] using noSlash_baseChars s.data
  | some i =>
    simp only [h]
    by_cases hi : i = 0
    · simpa [hi] using noSlash_baseChars s.data
    · simp only [hi, if_false, beq_iff_eq]
      exact noSlash_sub _ _ (List.take_subset _ _) (noSlash_baseChars s.data)

theorem noSlash_parse_ext (s : String) :
    noSlashL (parsePath s).ext.data = true := by
  unfold parsePath
  cases h : lastDotIdx (baseChars s.data) with
  | none => simp [h, noSlashL]
  | some i =>
    simp only [h]
    by_cases hi : i = 0
    · simp [hi, noSlashL]
    · simp only [hi, if_false, beq_iff_eq]
      exact noSlash_sub _ _ (List.drop_subset _ _) (noSlash_baseChars s.data)

theorem noSlash_append (l₁ l₂ : List Char) (h₁ : noSlashL l₁ = true)
    (h₂ : noSlashL l₂ = true) : noSlashL (l₁ ++ l₂) = true := by
  unfold noSlashL at *
  rw [List.all_append, h₁, h₂]
  rfl

/-- In overwrite mode the temporary sibling path is never equal to the input
path itself (provided the configured suffix contains no path separator): its
basename carries five extra marker characters beyond the input's basename. -/
theorem outPathOf_overwrite_ne (o : ProcessOptions) (item : String)
    (hov : o.overwriteSource = true)
    (hsfx : noSlashL (suffixOf o).data = true) :
    outPathOf o item ≠ item := by
  intro heq
  have hbigdata :
      ("." ++ (parsePath item).name ++ suffixOf o ++ "_tmp" ++
        (parsePath item).ext).data =
      '.' :: ((parsePath item).name.data ++ (suffixOf o).data ++
        "_tmp".data ++ (parsePath item).ext.data) := by
    simp [String.data_append]
  have hbig : noSlashL ("." ++ (parsePath item).name ++ suffixOf o ++ "_tmp" ++
      (parsePath item).ext).data = true := by
    rw [hbigdata]
    refine noSlash_append [Char.ofNat 46] _ (by decide) ?_
    refine noSlash_append _ _ ?_ (noSlash_parse_ext item)
    refine noSlash_append _ _ ?_ (by decide)
    exact noSlash_append _ _ (noSlash_parse_name item) hsfx
  have h1 : baseChars (outPathOf o item).data =
      ("." ++ (parsePath item).name ++ suffixOf o ++ "_tmp" ++
        (parsePath item).ext).data := by
    unfold outPathOf
    rw [if_pos hov]
    exact baseChars_joinP _ _ hbig
  rw [heq] at h1
  have h2 := parse_base item
  rw [← h2] at h1
  have hlen := congrArg List.length h1
  rw [hbigdata] at hlen
  simp [List.length_append] at hlen
  omega

/-! ## Characterizing the dispatcher's outcomes -/

/-- A successful dispatch result comes from a non-`other` route whose
sanitizer succeeded, composed by `mkSuccess`. -/
theorem pbt_success_shape (ip op : String)
    (sniff : Except String (Option String))
    (san : Category → Except String SanSuccess) (result : ProcessResult)
    (hok : processByType ip op sniff san = .ok result)
    (hs : result.status = .success) :
    ∃ d r, sniff = .ok d ∧
      route (extOf ip) (d.getD "") ≠ Category.other ∧
      san (route (extOf ip) (d.getD "")) = .ok r ∧
      result = mkSuccess ip op r := by
  cases sniff with
  | error e => exact absurd hok (by simp [processByType])
  | ok d =>
    refine ⟨d, ?_⟩
    have h1 : result = pbtTry ip op (extOf ip) (d.getD "") san := by
      have := hok
      unfold processByType at this
      exact (Except.ok.inj this).symm
    rw [pbtTry_eq] at h1
    unfold dispatchResult at h1
    by_cases ho : route (extOf ip) (d.getD "") = Category.other
    · rw [if_pos ho] at h1
      rw [h1] at hs
      simp at hs
    · rw [if_neg ho] at h1
      unfold runBranch at h1
      cases hsan : san (route (extOf ip) (d.getD "")) with
      | ok r =>
        rw [hsan] at h1
        exact ⟨r, rfl, ho, rfl, h1⟩
      | error m =>
        rw [hsan] at h1
        rw [h1] at hs
        simp [mkCaught] at hs

/-- When the dispatch succeeded with a sanitizer success, the filesystem
effect of `processByType` is exactly the write of the destination. -/
theorem sanFsEffect_of_success (fs : FsState) (item out : String)
    (fx : ItemFx) (result : ProcessResult)
    (hok : processByType item out fx.sniff fx.san = .ok result)
    (hs : result.status = .success) :
    sanFsEffect fs item out fx = setFile fs out fx.sanContent := by
  obtain ⟨d, r, hsn, hro, hsan, _⟩ :=
    pbt_success_shape item out fx.sniff fx.san result hok hs
  unfold sanFsEffect
  rw [hsn]
  simp only [if_neg hro, hsan]

/-- When the dispatch returned an error result and the sanitizer did not
write the destination, the filesystem is untouched. -/
theorem sanFsEffect_no_write (fs : FsState) (item out : String) (fx : ItemFx)
    (result : ProcessResult)
    (hok : processByType item out fx.sniff fx.san = .ok result)
    (he : result.status = .error) (hw : fx.sanWrites = false) :
    sanFsEffect fs item out fx = fs := by
  cases hsn : fx.sniff with
  | error e => simp [sanFsEffect, hsn]
  | ok d =>
    have h1 : result = pbtTry item out (extOf item) (d.getD "") fx.san := by
      have := hok
      unfold processByType at this
      rw [hsn] at this
      exact (Except.ok.inj this).symm
    unfold sanFsEffect
    rw [hsn]
    by_cases ho : route (extOf item) (d.getD "") = Category.other
    · simp [ho]
    · simp only [if_neg ho]
      cases hsan : fx.san (route (extOf item) (d.getD "")) with
      | ok r =>
        exfalso
        rw [pbtTry_eq] at h1
        unfold dispatchResult runBranch at h1
        rw [if_neg ho, hsan] at h1
        rw [h1] at he
        simp [mkSuccess] at he
      | error m => simp [hw]

/-! ## `stepCatch` lemmas -/

theorem stepCatch_res (o : ProcessOptions) (fs : FsState) (item : String)
    (fx : ItemFx) (msg : String) (db : Bool) :
    (stepCatch o fs item fx msg db).res =
      { inputPath := item, status := .error, message := some msg } := rfl

theorem stepCatch_didBackup (o : ProcessOptions) (fs : FsState)
    (item : String) (fx : ItemFx) (msg : String) (db : Bool) :
    (stepCatch o fs item fx msg db).didBackup = db := rfl

/-- In overwrite mode, whenever the `catch` clause runs and the unlink
succeeds, no temporary output remains afterwards. -/
theorem stepCatch_overwrite_clean (o : ProcessOptions) (fs : FsState)
    (item : String) (fx : ItemFx) (msg : String) (db : Bool)
    (hov : o.overwriteSource = true) (hun : fx.unlinkOk = true) :
    fileExists ((stepCatch o fs item fx msg db).fs) (outPathOf o item)
      = false := by
  unfold stepCatch
  rw [resolvePaths_overwrite item o fs fx.mkdirOk2 hov]
  simp only [hov, hun, Bool.true_and, Bool.and_true]
  by_cases hex : fileExists fs (outPathOf o item) = true
  · rw [if_pos hex]
    exact fileExists_removeFile_self _ _
  · rw [if_neg hex]
    exact Bool.eq_false_iff.mpr hex

theorem fileContent_renameFile_dst (fs : FsState) (src dst : String) (v : Nat)
    (h : fileContent fs src = some v) :
    fileContent (renameFile fs src dst) dst = some v := by
  unfold renameFile
  rw [h]
  exact fileContent_setFile_self _ _ _

/-- If a `step` in overwrite mode reports success, it took the rename
branch: the dispatcher succeeded, the temporary output was renamed onto the
input path, and the reported path was rewritten. -/
theorem step_overwrite_success (o : ProcessOptions) (fs : FsState)
    (item : String) (fx : ItemFx)
    (hov : o.overwriteSource = true) (hitem : item ≠ "")
    (hsucc : (step o fs item fx).res.status = .success) :
    ∃ result,
      processByType item (outPathOf o item) fx.sniff fx.san = .ok result ∧
      result.status = .success ∧ fx.renameOk = true ∧
      step o fs item fx =
        { fs := renameFile (sanFsEffect fs item (outPathOf o item) fx)
                  (outPathOf o item) item,
          res := { result with outputPath := some item },
          didBackup := false } ∧
      fileExists fs item = true := by
  have hres := resolvePaths_overwrite item o fs fx.mkdirOk hov
  unfold step at hsucc ⊢
  rw [if_neg hitem, hres] at hsucc ⊢
  dsimp only at hsucc ⊢
  by_cases hst : (fileExists fs item && fx.statOk) = true
  · rw [if_pos hst] at hsucc ⊢
    unfold stepRun at hsucc ⊢
    dsimp only at hsucc ⊢
    cases hpbt : processByType item (outPathOf o item) fx.sniff fx.san with
    | error e =>
      rw [hpbt, stepCatch_res] at hsucc
      simp at hsucc
    | ok result =>
      rw [hpbt] at hsucc
      dsimp only at hsucc ⊢
      by_cases hrs : result.status = .success
      · rw [if_pos hrs] at hsucc ⊢
        by_cases hut : fx.utimesOk = true
        · rw [if_pos hut, hov, if_pos rfl] at hsucc ⊢
          by_cases hrn : fx.renameOk = true
          · rw [if_pos hrn] at hsucc ⊢
            exact ⟨result, rfl, hrs, hrn, rfl, ((Bool.and_eq_true _ _).mp hst).1⟩
          · rw [if_neg hrn, stepCatch_res] at hsucc
            simp at hsucc
        · rw [if_neg hut, stepCatch_res] at hsucc
          simp at hsucc
      · rw [if_neg hrs] at hsucc
        dsimp only at hsucc
        exact absurd hsucc hrs
  · rw [if_neg hst, stepCatch_res] at hsucc
    simp at hsucc

/-- Has the dispatch call returned a caught per-item error result (as
opposed to succeeding or propagating an exception)? -/
def pbtCaught (item out : String) (fx : ItemFx) : Bool :=
  match processByType item out fx.sniff fx.san with
  | .ok r => r.status == .error
  | .error _ => false

/-! ## Claim C4 -/

/-- Claim C4 (amended): in overwrite mode (with a separator-free suffix):
on success, the temporary sibling is renamed onto the input path, the
reported `outputPath` is rewritten to the input path, no temporary remains
and the input path holds exactly the sanitizer's output.  On a failure that
reaches the handler's `catch` (an exception from the dispatch or from the
timestamp/rename steps), a dangling temporary is best-effort deleted, and
none remains when the unlink succeeds.  HOWEVER, when a sanitizer failure is
caught inside `processByType` and surfaced as a status-error result, no
cleanup runs — the guarantee for that case needs the extra hypothesis that
the sanitizer did not (partially) write the temporary. -/
theorem C4_overwrite_mode (o : ProcessOptions) (fs : FsState) (item : String)
    (fx : ItemFx)
    (hov : o.overwriteSource = true) (hitem : item ≠ "")
    (hsfx : noSlashL (suffixOf o).data = true) :
    ((step o fs item fx).res.status = .success →
       (step o fs item fx).res.outputPath = some item ∧
       fileExists ((step o fs item fx).fs) (outPathOf o item) = false ∧
       fileContent ((step o fs item fx).fs) item = some fx.sanContent) ∧
    (fileExists fs (outPathOf o item) = false →
     fx.unlinkOk = true →
     (pbtCaught item (outPathOf o item) fx && fx.sanWrites) = false →
     (step o fs item fx).res.status = .error →
     fileExists ((step o fs item fx).fs) (outPathOf o item) = false) := by
  constructor
  · intro hsucc
    obtain ⟨result, hpbt, hrs, hrn, hstep, hex⟩ :=
      step_overwrite_success o fs item fx hov hitem hsucc
    have hne := outPathOf_overwrite_ne o item hov hsfx
    have hsan :=
      sanFsEffect_of_success fs item (outPathOf o item) fx result hpbt hrs
    rw [hstep]
    refine ⟨rfl, ?_, ?_⟩
    · exact fileExists_renameFile_src _ _ _ hne
    · rw [hsan]
      exact fileContent_renameFile_dst _ _ _ _ (fileContent_setFile_self _ _ _)
  · intro habs hun hcg
    have hres := resolvePaths_overwrite item o fs fx.mkdirOk hov
    unfold step
    rw [if_neg hitem, hres]
    dsimp only
    by_cases hst : (fileExists fs item && fx.statOk) = true
    · rw [if_pos hst]
      unfold stepRun
      dsimp only
      cases hpbt : processByType item (outPathOf o item) fx.sniff fx.san with
      | error e =>
        intro _
        exact stepCatch_overwrite_clean o _ item fx e false hov hun
      | ok result =>
        dsimp only
        by_cases hrs : result.status = .success
        · rw [if_pos hrs]
          by_cases hut : fx.utimesOk = true
          · rw [if_pos hut, hov, if_pos rfl]
            by_cases hrn : fx.renameOk = true
            · rw [if_pos hrn]
              intro herr
              dsimp only at herr
              rw [hrs] at herr
              exact absurd herr (by decide)
            · rw [if_neg hrn]
              intro _
              exact stepCatch_overwrite_clean o _ item fx renameErrMsg false
                hov hun
          · rw [if_neg hut]
            intro _
            exact stepCatch_overwrite_clean o _ item fx utimesErrMsg false
              hov hun
        · rw [if_neg hrs]
          intro herr
          dsimp only at herr
          have hcaught : pbtCaught item (outPathOf o item) fx = true := by
            unfold pbtCaught
            rw [hpbt]
            dsimp only
            rw [herr]
            decide
          have hw : fx.sanWrites = false := by
            rw [hcaught] at hcg
            simpa using hcg
          rw [sanFsEffect_no_write fs item (outPathOf o item) fx result hpbt
            herr hw]
          exact habs
    · rw [if_neg hst]
      intro _
      exact stepCatch_overwrite_clean o fs item fx statErrMsg false hov hun

/-- Effects for the C4 witness: everything succeeds, the image sanitizer
writes content token 3. -/
def fx₄ : ItemFx :=
  { mkdirOk := true, statOk := true, sniff := .ok (some "image/png"),
    san := sanOkAll, sanWrites := true, sanContent := 3, utimesOk := true,
    renameOk := true, unlinkOk := true, copyOk := true, mkdirOk2 := true }

def o₄ : ProcessOptions := ⟨"", none, true⟩

def fs₄ : FsState := ⟨[("/a/x.png", 7)], []⟩

/-- Witness for `C4_overwrite_mode`: a successful overwrite run renames the
temporary onto the original and reports the original path. -/
theorem C4_overwrite_mode_witness :
    (step o₄ fs₄ "/a/x.png" fx₄).res.outputPath = some "/a/x.png" ∧
      fileExists ((step o₄ fs₄ "/a/x.png" fx₄).fs)
        (outPathOf o₄ "/a/x.png") = false ∧
      fileContent ((step o₄ fs₄ "/a/x.png" fx₄).fs) "/a/x.png" = some 3 :=
  (C4_overwrite_mode o₄ fs₄ "/a/x.png" fx₄ rfl (by decide) (by decide)).1
    (by decide)

/-- Effects for the C4 counterexample: the sanitizer partially writes the
temporary output and then fails; its error is caught inside the dispatcher. -/
def fx₄e : ItemFx :=
  { mkdirOk := true, statOk := true, sniff := .ok (some "image/png"),
    san := sanFail, sanWrites := true, sanContent := 3, utimesOk := true,
    renameOk := true, unlinkOk := true, copyOk := true, mkdirOk2 := true }

/-- Claim C4 (counterexample): when the sanitizer fails AFTER partially
writing the temporary output and its error is caught inside `processByType`
(a status-error result, not an exception), the handler performs no cleanup:
the item fails, yet a dangling temporary sibling remains. -/
theorem C4_counterexample :
    fileExists fs₄ (outPathOf o₄ "/a/x.png") = false ∧
      (step o₄ fs₄ "/a/x.png" fx₄e).res.status = Status.error ∧
      fileExists ((step o₄ fs₄ "/a/x.png" fx₄e).fs)
        (outPathOf o₄ "/a/x.png") = true := by
  decide

/-! ## Frame lemmas: one step only writes its own output path -/

theorem sanFsEffect_frame (fs : FsState) (item out : String) (fx : ItemFx)
    (p : String) (hp : p ≠ out) :
    fileExists (sanFsEffect fs item out fx) p = fileExists fs p := by
  unfold sanFsEffect
  cases fx.sniff with
  | error e => rfl
  | ok d =>
    dsimp only
    by_cases ho : route (extOf item) (d.getD "") = Category.other
    · rw [if_pos ho]
    · rw [if_neg ho]
      cases fx.san (route (extOf item) (d.getD "")) with
      | ok r => exact fileExists_setFile_ne _ _ _ _ hp
      | error m =>
        by_cases hw : fx.sanWrites = true
        · rw [if_pos hw]
          exact fileExists_setFile_ne _ _ _ _ hp
        · rw [if_neg hw]

theorem stepCatch_frame (o : ProcessOptions) (fs : FsState) (item : String)
    (fx : ItemFx) (msg : String) (db : Bool) (p : String)
    (hp : p ≠ outPathOf o item) :
    fileExists ((stepCatch o fs item fx msg db).fs) p = fileExists fs p := by
  unfold stepCatch
  cases hres : resolvePaths item o fs fx.mkdirOk2 with
  | error e => rfl
  | ok v =>
    obtain ⟨rp, fsr⟩ := v
    obtain ⟨hout, -, hfiles⟩ :=
      resolvePaths_ok_shape item o fs fx.mkdirOk2 rp fsr hres
    dsimp only
    by_cases hc :
        (o.overwriteSource && fileExists fsr rp.outputPath && fx.unlinkOk)
          = true
    · rw [if_pos hc,
        fileExists_removeFile_ne _ _ _ (fun h => hp (h.trans hout))]
      exact fileExists_files_eq _ _ _ hfiles
    · rw [if_neg hc]
      exact fileExists_files_eq _ _ _ hfiles

theorem stepRun_frame (o : ProcessOptions) (fs : FsState) (item : String)
    (fx : ItemFx) (rp : ResolvedPath) (db : Bool) (p : String)
    (hout : rp.outputPath = outPathOf o item)
    (hex : fileExists fs item = true)
    (hp : p ≠ outPathOf o item) :
    fileExists ((stepRun o fs item fx rp db).fs) p = fileExists fs p := by
  have hp' : p ≠ rp.outputPath := fun h => hp (h.trans hout)
  unfold stepRun
  dsimp only
  cases hpbt : processByType item rp.outputPath fx.sniff fx.san with
  | error e =>
    rw [stepCatch_frame o _ item fx e db p hp]
    exact sanFsEffect_frame fs item rp.outputPath fx p hp'
  | ok result =>
    dsimp only
    by_cases hrs : result.status = .success
    · rw [if_pos hrs]
      by_cases hut : fx.utimesOk = true
      · rw [if_pos hut]
        by_cases hov : o.overwriteSource = true
        · rw [hov, if_pos rfl]
          by_cases hrn : fx.renameOk = true
          · rw [if_pos hrn]
            by_cases hpi : p = item
            · subst hpi
              rw [hex]
              have hsan := sanFsEffect_of_success fs p rp.outputPath fx result
                hpbt hrs
              rw [hsan]
              unfold renameFile
              rw [fileContent_setFile_self]
              unfold fileExists
              rw [fileContent_setFile_self]
              rfl
            · rw [fileExists_renameFile_other _ _ _ _ hp' hpi]
              exact sanFsEffect_frame fs item rp.outputPath fx p hp'
          · rw [if_neg hrn, stepCatch_frame o _ item fx renameErrMsg db p hp]
            exact sanFsEffect_frame fs item rp.outputPath fx p hp'
        · rw [Bool.not_eq_true] at hov
          rw [hov, if_neg (by decide : ¬ (false = true))]
          exact sanFsEffect_frame fs item rp.outputPath fx p hp'
      · rw [if_neg hut, stepCatch_frame o _ item fx utimesErrMsg db p hp]
        exact sanFsEffect_frame fs item rp.outputPath fx p hp'
    · rw [if_neg hrs]
      exact sanFsEffect_frame fs item rp.outputPath fx p hp'

theorem step_frame (o : ProcessOptions) (fs : FsState) (item : String)
    (fx : ItemFx) (p : String) (hp : p ≠ outPathOf o item) :
    fileExists ((step o fs item fx).fs) p = fileExists fs p := by
  unfold step
  by_cases hitem : item = ""
  · rw [if_pos hitem]
  · rw [if_neg hitem]
    cases hres : resolvePaths item o fs fx.mkdirOk with
    | error e => exact stepCatch_frame o fs item fx e false p hp
    | ok v =>
      obtain ⟨rp, fs1⟩ := v
      obtain ⟨hout, hbp, hfiles⟩ :=
        resolvePaths_ok_shape item o fs fx.mkdirOk rp fs1 hres
      dsimp only
      rw [hbp]
      dsimp only
      by_cases hst : (fileExists fs1 item && fx.statOk) = true
      · rw [if_pos hst]
        rw [stepRun_frame o fs1 item fx rp false p hout
          ((Bool.and_eq_true _ _).mp hst).1 hp]
        exact fileExists_files_eq _ _ _ hfiles
      · rw [if_neg hst]
        rw [stepCatch_frame o fs1 item fx statErrMsg false p hp]
        exact fileExists_files_eq _ _ _ hfiles

/-! ## The per-item result depends on the filesystem only through the
existence of the item's own input file -/

theorem stepRun_res_fs (o : ProcessOptions) (fs₁ fs₂ : FsState)
    (item : String) (fx : ItemFx) (rp : ResolvedPath) (db : Bool) :
    (stepRun o fs₁ item fx rp db).res = (stepRun o fs₂ item fx rp db).res := by
  unfold stepRun
  dsimp only
  cases processByType item rp.outputPath fx.sniff fx.san with
  | error e => rw [stepCatch_res, stepCatch_res]
  | ok result =>
    dsimp only
    by_cases hrs : result.status = .success
    · rw [if_pos hrs, if_pos hrs]
      by_cases hut : fx.utimesOk = true
      · rw [if_pos hut, if_pos hut]
        by_cases hov : o.overwriteSource = true
        · rw [hov, if_pos rfl, if_pos rfl]
          by_cases hrn : fx.renameOk = true
          · rw [if_pos hrn, if_pos hrn]
          · rw [if_neg hrn, if_neg hrn, stepCatch_res, stepCatch_res]
        · rw [Bool.not_eq_true] at hov
          rw [hov, if_neg (by decide : ¬ (false = true)),
            if_neg (by decide : ¬ (false = true))]
      · rw [if_neg hut, if_neg hut, stepCatch_res, stepCatch_res]
    · rw [if_neg hrs, if_neg hrs]

theorem step_res_congr (o : ProcessOptions) (fs₁ fs₂ : FsState)
    (item : String) (fx : ItemFx)
    (h : fileExists fs₁ item = fileExists fs₂ item) :
    (step o fs₁ item fx).res = (step o fs₂ item fx).res := by
  unfold step
  by_cases hitem : item = ""
  · rw [if_pos hitem, if_pos hitem]
  · rw [if_neg hitem, if_neg hitem]
    rcases resolvePaths_fs_cases item o fx.mkdirOk fs₁ fs₂ with
      ⟨e, h1, h2⟩ | ⟨rp, fs1', fs2', h1, h2, hf1, hf2⟩
    · rw [h1, h2]
      dsimp only
      rw [stepCatch_res, stepCatch_res]
    · rw [h1, h2]
      dsimp only
      have hbp := (resolvePaths_ok_shape item o fs₁ fx.mkdirOk rp fs1' h1).2.1
      rw [hbp]
      dsimp only
      have hexeq : fileExists fs1' item = fileExists fs2' item := by
        rw [fileExists_files_eq fs1' fs₁ item hf1,
          fileExists_files_eq fs2' fs₂ item hf2, h]
      rw [hexeq]
      by_cases hst : (fileExists fs2' item && fx.statOk) = true
      · rw [if_pos hst, if_pos hst]
        exact stepRun_res_fs o fs1' fs2' item fx rp false
      · rw [if_neg hst, if_neg hst, stepCatch_res, stepCatch_res]

/-! ## Every result names its own input path -/

theorem pbtTry_inputPath (ip op ext mime : String)
    (san : Category → Except String SanSuccess) :
    (pbtTry ip op ext mime san).inputPath = ip := by
  rw [pbtTry_eq]
  unfold dispatchResult
  by_cases ho : route ext mime = Category.other
  · rw [if_pos ho]
  · rw [if_neg ho]
    unfold runBranch
    cases san (route ext mime) with
    | ok r => rfl
    | error m => rfl

theorem stepRun_res_inputPath (o : ProcessOptions) (fs : FsState)
    (item : String) (fx : ItemFx) (rp : ResolvedPath) (db : Bool) :
    (stepRun o fs item fx rp db).res.inputPath = item := by
  unfold stepRun
  dsimp only
  cases hpbt : processByType item rp.outputPath fx.sniff fx.san with
  | error e => rw [stepCatch_res]
  | ok result =>
    have hip : result.inputPath = item := by
      cases hsn : fx.sniff with
      | error e =>
        rw [hsn] at hpbt
        exact absurd hpbt (by simp [processByType])
      | ok d =>
        unfold processByType at hpbt
        rw [hsn] at hpbt
        rw [← Except.ok.inj hpbt]
        exact pbtTry_inputPath item rp.outputPath (extOf item) (d.getD "")
          fx.san
    dsimp only
    by_cases hrs : result.status = .success
    · rw [if_pos hrs]
      by_cases hut : fx.utimesOk = true
      · rw [if_pos hut]
        by_cases hov : o.overwriteSource = true
        · rw [hov, if_pos rfl]
          by_cases hrn : fx.renameOk = true
          · rw [if_pos hrn]
            exact hip
          · rw [if_neg hrn, stepCatch_res]
        · rw [Bool.not_eq_true] at hov
          rw [hov, if_neg (by decide : ¬ (false = true))]
          exact hip
      · rw [if_neg hut, stepCatch_res]
    · rw [if_neg hrs]
      exact hip

theorem step_res_inputPath (o : ProcessOptions) (fs : FsState)
    (item : String) (fx : ItemFx) :
    (step o fs item fx).res.inputPath = (if item = "" then "" else item) := by
  unfold step
  by_cases hitem : item = ""
  · rw [if_pos hitem, if_pos hitem]
  · rw [if_neg hitem, if_neg hitem]
    cases hres : resolvePaths item o fs fx.mkdirOk with
    | error e => rw [stepCatch_res]
    | ok v =>
      obtain ⟨rp, fs1⟩ := v
      have hbp := (resolvePaths_ok_shape item o fs fx.mkdirOk rp fs1 hres).2.1
      dsimp only
      rw [hbp]
      dsimp only
      by_cases hst : (fileExists fs1 item && fx.statOk) = true
      · rw [if_pos hst]
        exact stepRun_res_inputPath o fs1 item fx rp false
      · rw [if_neg hst, stepCatch_res]

/-! ## Batch-level lemmas -/

theorem runBatch_length (o : ProcessOptions) (fs : FsState)
    (l : List (String × ItemFx)) :
    (runBatch o fs l).2.length = l.length := by
  induction l generalizing fs with
  | nil => rfl
  | cons hd tl ih =>
    obtain ⟨it, fx⟩ := hd
    simp only [runBatch, List.length_cons]
    rw [ih]

theorem runBatch_get?_inputPath (o : ProcessOptions) (fs : FsState)
    (l : List (String × ItemFx)) (i : Nat) :
    ((runBatch o fs l).2.get? i).map ProcessResult.inputPath
      = (l.get? i).map (fun p => if p.1 = "" then "" else p.1) := by
  induction l generalizing fs i with
  | nil => rfl
  | cons hd tl ih =>
    obtain ⟨it, fx⟩ := hd
    cases i with
    | zero =>
      simp only [runBatch, List.get?, Option.map_some']
      rw [step_res_inputPath]
    | succ n =>
      simp only [runBatch, List.get?]
      exact ih _ n

/-- Two runs of the same batch from filesystems that agree on the existence
of every item's input file produce the same result list (given no item's
computed output path collides with any item's input path). -/
theorem runBatch_res_congr (o : ProcessOptions) (l : List (String × ItemFx))
    (fsA fsB : FsState)
    (hex : ∀ it ∈ l.map Prod.fst, fileExists fsA it = fileExists fsB it)
    (hcond : ∀ a ∈ l.map Prod.fst, ∀ b ∈ l.map Prod.fst,
      outPathOf o a ≠ b) :
    (runBatch o fsA l).2 = (runBatch o fsB l).2 := by
  induction l generalizing fsA fsB with
  | nil => rfl
  | cons hd tl ih =>
    obtain ⟨it, fx⟩ := hd
    have hit : it ∈ ((it, fx) :: tl).map Prod.fst := by simp
    simp only [runBatch]
    congr 1
    · exact step_res_congr o fsA fsB it fx (hex it hit)
    · apply ih
      · intro b hb
        have hbmem : b ∈ ((it, fx) :: tl).map Prod.fst := by
          simp only [List.map_cons, List.mem_cons]
          exact Or.inr hb
        have hne : outPathOf o it ≠ b := hcond it hit b hbmem
        rw [step_frame o fsA it fx b hne.symm, step_frame o fsB it fx b hne.symm]
        exact hex b hbmem
      · intro a ha b hb
        refine hcond a ?_ b ?_ <;>
          simp only [List.map_cons, List.mem_cons]
        · exact Or.inr ha
        · exact Or.inr hb

/-- A whole run leaves the existence of any path untouched when no item's
computed output path equals it. -/
theorem runBatch_fs_frame (o : ProcessOptions) (l : List (String × ItemFx))
    (fs : FsState) (p : String)
    (h : ∀ it ∈ l.map Prod.fst, outPathOf o it ≠ p) :
    fileExists ((runBatch o fs l).1) p = fileExists fs p := by
  induction l generalizing fs with
  | nil => rfl
  | cons hd tl ih =>
    obtain ⟨it, fx⟩ := hd
    simp only [runBatch]
    rw [ih _ (fun b hb => h b (by
      simp only [List.map_cons, List.mem_cons]
      exact Or.inr hb))]
    exact step_frame o fs it fx p (h it (by simp)).symm

theorem listEqOfGetEq {α : Type} :
    ∀ (l₁ l₂ : List α), (∀ i, l₁.get? i = l₂.get? i) → l₁ = l₂
  | [], [], _ => rfl
  | [], b :: bs, h => by have h0 := h 0; simp at h0
  | a :: as, [], h => by have h0 := h 0; simp at h0
  | a :: as, b :: bs, h => by
    have h0 := h 0
    simp only [List.get?, Option.some.injEq] at h0
    have htl := listEqOfGetEq as bs (fun i => by
      have hi := h (i + 1)
      simpa using hi)
    rw [h0, htl]

/-- Changing only item `j`'s effect outcomes cannot change the result of any
other item, provided no item's computed output path equals any item's input
path (the paths every step may write are then disjoint from the paths any
other step reads). -/
theorem runBatch_indep (o : ProcessOptions) :
    ∀ (l₁ l₂ : List (String × ItemFx)) (fs : FsState) (j : Nat),
      l₁.map Prod.fst = l₂.map Prod.fst →
      (∀ i, i ≠ j → l₁.get? i = l₂.get? i) →
      (∀ a ∈ l₁.map Prod.fst, ∀ b ∈ l₁.map Prod.fst, outPathOf o a ≠ b) →
      ∀ i, i ≠ j →
        (runBatch o fs l₁).2.get? i = (runBatch o fs l₂).2.get? i := by
  intro l₁
  induction l₁ with
  | nil =>
    intro l₂ fs j hmap _ _ i _
    cases l₂ with
    | nil => rfl
    | cons hd tl => simp at hmap
  | cons hd₁ t₁ ih =>
    intro l₂ fs j hmap hget hcond i hij
    obtain ⟨it₁, f₁⟩ := hd₁
    cases l₂ with
    | nil => simp at hmap
    | cons hd₂ t₂ =>
      obtain ⟨it₂, f₂⟩ := hd₂
      have hmap' : it₁ = it₂ ∧ t₁.map Prod.fst = t₂.map Prod.fst := by
        simpa using hmap
      obtain ⟨hit, hmaptl⟩ := hmap'
      subst hit
      have hhd : it₁ ∈ ((it₁, f₁) :: t₁).map Prod.fst := by simp
      cases j with
      | zero =>
        have htl : t₁ = t₂ := listEqOfGetEq t₁ t₂ (fun k => by
          have hk := hget (k + 1) (Nat.succ_ne_zero k)
          simpa using hk)
        subst htl
        cases i with
        | zero => exact absurd rfl hij
        | succ n =>
          simp only [runBatch, List.get?]
          have hcongr := runBatch_res_congr o t₁
            (step o fs it₁ f₁).fs (step o fs it₁ f₂).fs
            (fun b hb => by
              have hbmem : b ∈ ((it₁, f₁) :: t₁).map Prod.fst := by
                simp only [List.map_cons, List.mem_cons]
                exact Or.inr hb
              have hne := hcond it₁ hhd b hbmem
              rw [step_frame o fs it₁ f₁ b hne.symm, step_frame o fs it₁ f₂ b hne.symm])
            (fun a ha b hb => by
              refine hcond a ?_ b ?_ <;>
                simp only [List.map_cons, List.mem_cons]
              · exact Or.inr ha
              · exact Or.inr hb)
          rw [hcongr]
      | succ j' =>
        have hhd0 := hget 0 (Nat.succ_ne_zero j').symm
        simp only [List.get?, Option.some.injEq] at hhd0
        have hf : f₁ = f₂ := by
          have := congrArg Prod.snd hhd0
          simpa using this
        subst hf
        cases i with
        | zero => simp only [runBatch, List.get?]
        | succ n =>
          simp only [runBatch, List.get?]
          exact ih t₂ (step o fs it₁ f₁).fs j' hmaptl
            (fun k hk => by
              have hk1 := hget (k + 1) (by
                intro hc
                exact hk (Nat.succ_injective hc))
              simpa using hk1)
            (fun a ha b hb => by
              refine hcond a ?_ b ?_ <;>
                simp only [List.map_cons, List.mem_cons]
              · exact Or.inr ha
              · exact Or.inr hb)
            n (fun hc => hij (by rw [hc]))

/-! ## Claim C1 -/

/-- Claim C1 (amended): the `process-files` handler returns exactly one
result per input item, in input order (each result naming its item's path),
and — being a total function in which every fallible operation is a caught
branch — it never raises.  Per-item independence, however, only holds under
a no-collision condition: the items are pairwise distinct and no item's
resolved output path equals any item's input path.  (The distinctness
hypothesis is required for faithfulness: duplicated items share on-disk
content in reality, which this model's per-item effect oracles do not
track.) -/
theorem C1_batch_results (o : ProcessOptions) (fs : FsState)
    (l₁ l₂ : List (String × ItemFx)) (j : Nat)
    (hmap : l₁.map Prod.fst = l₂.map Prod.fst)
    (hget : ∀ i, i ≠ j → l₁.get? i = l₂.get? i)
    (_hnodup : (l₁.map Prod.fst).Nodup)
    (hcond : ∀ a ∈ l₁.map Prod.fst, ∀ b ∈ l₁.map Prod.fst,
      outPathOf o a ≠ b) :
    (runBatch o fs l₁).2.length = l₁.length ∧
      (∀ i, ((runBatch o fs l₁).2.get? i).map ProcessResult.inputPath
        = (l₁.get? i).map (fun p => if p.1 = "" then "" else p.1)) ∧
      (∀ i, i ≠ j →
        (runBatch o fs l₁).2.get? i = (runBatch o fs l₂).2.get? i) :=
  ⟨runBatch_length o fs l₁,
   fun i => runBatch_get?_inputPath o fs l₁ i,
   runBatch_indep o l₁ l₂ fs j hmap hget hcond⟩

/-- Effects of an all-success image run (no partial write). -/
def fxGood : ItemFx :=
  { mkdirOk := true, statOk := true, sniff := .ok (some "image/png"),
    san := sanOkAll, sanWrites := false, sanContent := 2, utimesOk := true,
    renameOk := true, unlinkOk := true, copyOk := true, mkdirOk2 := true }

/-- Same effects, but the sanitizer throws (caught by the dispatcher)
without having written anything. -/
def fxBad : ItemFx :=
  { mkdirOk := true, statOk := true, sniff := .ok (some "image/png"),
    san := sanFail, sanWrites := false, sanContent := 2, utimesOk := true,
    renameOk := true, unlinkOk := true, copyOk := true, mkdirOk2 := true }

def o₁c : ProcessOptions := ⟨"/out", none, false⟩

def fs₁c : FsState := ⟨[("/a/x.t", 1)], []⟩

/-- The shared second item of the two counterexample batches: its input IS
the first item's resolved output path. -/
def tail₁c : String × ItemFx := ("/out/x-clean.t", fxGood)

def l₁c : List (String × ItemFx) := [("/a/x.t", fxGood), tail₁c]

def l₂c : List (String × ItemFx) := [("/a/x.t", fxBad), tail₁c]

/-- Claim C1 (counterexample): item outcomes are NOT unconditionally
independent.  Two batches over the same two items — the second item's input
path being the first item's resolved output — differ only in whether item 0
succeeds or fails; item 1's result flips between success and error, because
item 0's success is what creates item 1's input file. -/
theorem C1_counterexample :
    l₁c.map Prod.fst = l₂c.map Prod.fst ∧
      List.drop 1 l₁c = List.drop 1 l₂c ∧
      (runBatch o₁c fs₁c l₁c).2.get? 1 ≠ (runBatch o₁c fs₁c l₂c).2.get? 1 := by
  refine ⟨rfl, rfl, ?_⟩
  decide

/-- Witness for `C1_batch_results`: a one-item batch. -/
theorem C1_batch_results_witness :
    (runBatch o₁c fs₁c [("/a/x.t", fxGood)]).2.length
        = ([("/a/x.t", fxGood)] : List (String × ItemFx)).length ∧
      ((runBatch o₁c fs₁c [("/a/x.t", fxGood)]).2.get? 0).map
          ProcessResult.inputPath
        = (([("/a/x.t", fxGood)] : List (String × ItemFx)).get? 0).map
            (fun p => if p.1 = "" then "" else p.1) ∧
      (runBatch o₁c fs₁c [("/a/x.t", fxGood)]).2.get? 1
        = (runBatch o₁c fs₁c [("/a/x.t", fxGood)]).2.get? 1 := by
  have k := C1_batch_results o₁c fs₁c [("/a/x.t", fxGood)]
    [("/a/x.t", fxGood)] 0 rfl (fun _ _ => rfl) (by decide) (by decide)
  exact ⟨k.1, k.2.1 0, k.2.2 1 (by decide)⟩

end InfoRemover
